import Mathlib

/-!
Verification development for the rust-layers compositing engine.

Shallow embedding of:
  * src/src/scene.rs        — Scene, buffer-request traversal, set_root_layer_size
  * src/layers.rs           — sibling-pointer layer tree (add_child / remove_child)
  * src/src/rendergl.rs     — render pipeline (filter selection, layer/tile render)
  * src/src/platform/macos/surface.rs — IOSurface native-surface registry

Machine floats (f32) are embedded as exact rationals; the operations the
claims exercise (add, mul, div, compare, truncating cast) are modelled
exactly.  Per-layer tiling and buffer collection live in a layers.rs that is
not present in the source tree; those definitions are modelled from the
spec and marked as such.
-/

/-! ## Geometry: euclid rectangles over ℚ

Embedding of the euclid `Rect` operations the traversal uses.
`intersects` uses strict inequalities, so an empty (zero-size) rectangle
intersects nothing; `intersection` returns `none` for non-overlapping
rectangles, exactly as euclid does. -/

structure QRect where
  x : ℚ
  y : ℚ
  w : ℚ
  h : ℚ
deriving DecidableEq, Repr

namespace QRect

def intersects (a b : QRect) : Prop :=
  a.x < b.x + b.w ∧ b.x < a.x + a.w ∧ a.y < b.y + b.h ∧ b.y < a.y + a.h

instance : DecidablePred (fun p : QRect × QRect => intersects p.1 p.2) :=
  fun _ => by unfold intersects; infer_instance

instance (a b : QRect) : Decidable (intersects a b) := by
  unfold intersects; infer_instance

def intersection (a b : QRect) : Option QRect :=
  if intersects a b then
    some { x := max a.x b.x,
           y := max a.y b.y,
           w := min (a.x + a.w) (b.x + b.w) - max a.x b.x,
           h := min (a.y + a.h) (b.y + b.h) - max a.y b.y }
  else
    none

/-- A point lies in the half-open extent of a rectangle. -/
def containsPt (r : QRect) (p : ℚ × ℚ) : Prop :=
  r.x ≤ p.1 ∧ p.1 < r.x + r.w ∧ r.y ≤ p.2 ∧ p.2 < r.y + r.h

instance (r : QRect) (p : ℚ × ℚ) : Decidable (containsPt r p) := by
  unfold containsPt; infer_instance

end QRect

/-! ## Tiling (modelled from the spec)

The per-layer request generation lives in the modern `layers.rs`/`tiling.rs`,
which is not in the source tree; only its caller (`scene.rs`) is. -/

/-- A buffer request: a tile rectangle of a layer needing paint. -/
structure BufferRequest where
  rect : QRect
deriving DecidableEq, Repr

/-- Modelled from the spec: the layer tile-grid edge length used by the
missing `tiling.rs` (tiles are fixed-size squares). -/
def tileSize : ℚ := 256

/-- Grid indices `i` whose cell `[i*tileSize, (i+1)*tileSize)` meets the
half-open interval `[lo, hi)`. -/
def gridIndices (lo hi : ℚ) : List ℤ :=
  let i0 : ℤ := ⌊lo / tileSize⌋
  (List.range (⌈hi / tileSize⌉ - i0).toNat).map (fun (k : ℕ) => i0 + (k : ℤ))

/-- Modelled from the spec: `Layer::get_buffer_requests` from the missing
modern `layers.rs` — "Intersect the incoming dirty rect (already
layer-local) with the layer's bounds; partition the intersection into the
layer's tile grid and emit a request for each tile needing repaint."
The requests partition the intersection along the tile grid. -/
def tileRequests (dirty bounds : QRect) : List BufferRequest :=
  match QRect.intersection dirty bounds with
  | none => []
  | some inter =>
      (gridIndices inter.x (inter.x + inter.w)).flatMap (fun (i : ℤ) =>
        (gridIndices inter.y (inter.y + inter.h)).map (fun (j : ℤ) =>
          let cx := max inter.x ((i : ℚ) * tileSize)
          let cy := max inter.y ((j : ℚ) * tileSize)
          { rect := { x := cx,
                      y := cy,
                      w := min (inter.x + inter.w) (((i : ℚ) + 1) * tileSize) - cx,
                      h := min (inter.y + inter.h) (((j : ℚ) + 1) * tileSize) - cy } }))

/-! ## The modern layer tree and the Scene traversal (src/src/scene.rs) -/

/-- The modern `Layer<T>` as the scene traversal sees it: identity, bounds
(parent-relative, layer pixels), the masks-to-bounds flag, the cached
screen-space rect (`transform_state.screen_rect`), the buffers
`collect_unused_buffers` would currently hand back (modelled as data,
identified by numeric ids), and the ordered children. -/
inductive SceneLayer : Type where
  | mk (id : Nat) (bounds : QRect) (masksToBounds : Bool)
       (screenRect : Option QRect) (unused : List Nat)
       (children : List SceneLayer) : SceneLayer

namespace SceneLayer

def id : SceneLayer → Nat
  | .mk i _ _ _ _ _ => i

def bounds : SceneLayer → QRect
  | .mk _ b _ _ _ _ => b

def masksToBounds : SceneLayer → Bool
  | .mk _ _ m _ _ _ => m

def screenRect : SceneLayer → Option QRect
  | .mk _ _ _ s _ _ => s

def unused : SceneLayer → List Nat
  | .mk _ _ _ _ u _ => u

def children : SceneLayer → List SceneLayer
  | .mk _ _ _ _ _ c => c

/-- Modelled from the spec: `collect_unused_buffers` of the missing modern
`layers.rs` — hands back the tiles no longer referenced this frame.  Which
buffers are currently unused is painter state; it is carried as the
`unused` field. -/
def collect_unused_buffers (layer : SceneLayer) : List Nat :=
  layer.unused

/-- Modelled from the spec: the per-layer request generation called by the
traversal (`layer.get_buffer_requests(dirty_rect, viewport_rect, scale)`),
from the missing modern `layers.rs`; see `tileRequests`. -/
def get_buffer_requests (layer : SceneLayer) (dirty : QRect) (_viewport : QRect)
    (_scale : ℚ) : List BufferRequest :=
  tileRequests dirty layer.bounds

end SceneLayer

/-- The two output lists the traversal appends to: `(layer, requests)`
entries and `(layer, unused buffers)` entries, layers by id. -/
abbrev TraversalOut := List (Nat × List BufferRequest) × List (Nat × List Nat)

mutual

/-- `Scene::get_buffer_requests_for_layer` (src/src/scene.rs lines 35–87),
in state-passing form: the returned pair is what the call appends to the
two `&mut Vec` outputs, in push order. -/
def get_buffer_requests_for_layer (scale : ℚ) :
    SceneLayer → QRect → QRect → TraversalOut
  | .mk i b m s u c, dirty_rect, viewport_rect =>
    let layer : SceneLayer := .mk i b m s u c
    let requests := layer.get_buffer_requests dirty_rect viewport_rect scale
    let ownRequests : List (Nat × List BufferRequest) :=
      if requests.isEmpty then [] else [(i, requests)]
    let ownUnused : List (Nat × List Nat) :=
      [(i, layer.collect_unused_buffers)]
    if m then
      match s with
      | some screen_rect =>
          match QRect.intersection dirty_rect screen_rect with
          | some child_dirty_rect =>
              let rest := goChildren scale c child_dirty_rect viewport_rect
              (ownRequests ++ rest.1, ownUnused ++ rest.2)
          | none =>
              -- the layer is entirely clipped by the dirty rect: early exit
              (ownRequests, ownUnused)
      | none =>
          -- the layer is entirely clipped and masks children: early exit
          (ownRequests, ownUnused)
    else
      let rest := goChildren scale c dirty_rect viewport_rect
      (ownRequests ++ rest.1, ownUnused ++ rest.2)

/-- The `for kid in layer.children()` loop of the traversal. -/
def goChildren (scale : ℚ) (kids : List SceneLayer)
    (dirty_rect viewport_rect : QRect) : TraversalOut :=
  match kids with
  | [] => ([], [])
  | k :: ks =>
      let first := get_buffer_requests_for_layer scale k dirty_rect viewport_rect
      let rest := goChildren scale ks dirty_rect viewport_rect
      (first.1 ++ rest.1, first.2 ++ rest.2)

end

/-- `Scene<T>` (src/src/scene.rs lines 18–24). -/
structure Scene where
  root : Option SceneLayer
  viewport : QRect
  scale : ℚ

namespace Scene

/-- `Scene::get_buffer_requests` (src/src/scene.rs lines 89–102): what one
call appends to the two output vectors. -/
def get_buffer_requests (scene : Scene) : TraversalOut :=
  match scene.root with
  | none => ([], [])
  | some root_layer =>
      get_buffer_requests_for_layer scene.scale root_layer
        root_layer.bounds root_layer.bounds

/-- `Scene::set_root_layer_size` (src/src/scene.rs lines 119–126).
`new_size / self.scale` divides both components by the scale factor. -/
def set_root_layer_size (scene : Scene) (new_size : ℚ × ℚ) : Scene :=
  match scene.root with
  | some (.mk i _ m s u c) =>
      { scene with
        root := some (.mk i
          { x := 0, y := 0, w := new_size.1 / scene.scale, h := new_size.2 / scene.scale }
          m s u c) }
  | none => scene

end Scene

/-! ## The sibling-pointer layer tree (src/layers.rs)

`src/layers.rs` builds the tree out of `@mut` pointers: every layer holds
`parent` / `prev_sibling` / `next_sibling` links and containers hold
`first_child` / `last_child`.  The mutable pointer graph is embedded as an
explicit store mapping numeric layer ids to nodes; pointer equality
(`mut_ptr_eq`) becomes id equality, and a failed `assert!` / `fail!`
becomes an `Option.none` result. -/

/-- The two variants of the `Layer` enum (`ContainerLayerKind` /
`TextureLayerKind`). -/
inductive LayerKind where
  | container
  | texture
deriving DecidableEq, Repr

/-- `CommonLayer` (src/layers.rs lines 37–43), links by id. -/
structure CommonLayer where
  parent : Option Nat
  prev_sibling : Option Nat
  next_sibling : Option Nat
deriving DecidableEq, Repr

/-- One heap node: the common links plus, for containers, the
`first_child` / `last_child` fields of `ContainerLayer`. -/
structure LayerNode where
  kind : LayerKind
  common : CommonLayer
  first_child : Option Nat
  last_child : Option Nat
deriving DecidableEq, Repr

/-- The heap of `@mut` layer nodes, as an association list id ↦ node. -/
abbrev LayerStore := List (Nat × LayerNode)

namespace LayerStore

def lookup (s : LayerStore) (i : Nat) : Option LayerNode :=
  match s with
  | [] => none
  | (j, n) :: rest => if j = i then some n else lookup rest i

/-- In-place mutation of the node at id `i`. -/
def update (s : LayerStore) (i : Nat) (f : LayerNode → LayerNode) : LayerStore :=
  match s with
  | [] => []
  | (j, n) :: rest => if j = i then (j, f n) :: rest else (j, n) :: update rest i f

def nextOf (s : LayerStore) (i : Nat) : Option Nat :=
  match s.lookup i with
  | some n => n.common.next_sibling
  | none => none

def firstChildOf (s : LayerStore) (p : Nat) : Option Nat :=
  match s.lookup p with
  | some n => n.first_child
  | none => none

def lastChildOf (s : LayerStore) (p : Nat) : Option Nat :=
  match s.lookup p with
  | some n => n.last_child
  | none => none

def parentOf (s : LayerStore) (i : Nat) : Option Nat :=
  match s.lookup i with
  | some n => n.common.parent
  | none => none

/-- The sibling walk `each_child` performs (src/layers.rs lines 78–88):
follow `next_sibling` from a start link, with fuel bounding the walk. -/
def walkSiblings (s : LayerStore) : Option Nat → Nat → List Nat
  | none, _ => []
  | some _, 0 => []
  | some i, fuel + 1 => i :: walkSiblings s (s.nextOf i) fuel

/-- The parent's children in paint order, as `each_child` yields them. -/
def childrenOf (s : LayerStore) (p : Nat) (fuel : Nat) : List Nat :=
  walkSiblings s (s.firstChildOf p) fuel

end LayerStore

/-- `ContainerLayer::add_child` (src/layers.rs lines 91–117).  `none`
models a failed `assert!`.  The receiver must be a container (the method
is defined on `ContainerLayer`); the child must be fully disconnected. -/
def add_child (s : LayerStore) (self : Nat) (new_child : Nat) : Option LayerStore :=
  match s.lookup self, s.lookup new_child with
  | some selfNode, some childNode =>
      if selfNode.kind = LayerKind.container ∧
         childNode.common.parent = none ∧
         childNode.common.prev_sibling = none ∧
         childNode.common.next_sibling = none then
        -- new_child_common.parent = Some(ContainerLayerKind(self))
        let s1 := s.update new_child (fun n =>
          { n with common := { n.common with parent := some self } })
        -- match self.first_child { Some(first_child) => link at the front }
        match selfNode.first_child with
        | none =>
            let s2 := s1.update self (fun n => { n with first_child := some new_child })
            -- match self.last_child { None => self.last_child = Some(new_child) }
            some (if selfNode.last_child = none then
                    s2.update self (fun n => { n with last_child := some new_child })
                  else s2)
        | some fc =>
            match s.lookup fc with
            | some fcNode =>
                if fcNode.common.prev_sibling = none then
                  let s2 := s1.update fc (fun n =>
                    { n with common := { n.common with prev_sibling := some new_child } })
                  let s3 := s2.update new_child (fun n =>
                    { n with common := { n.common with next_sibling := some fc } })
                  let s4 := s3.update self (fun n => { n with first_child := some new_child })
                  some (if selfNode.last_child = none then
                          s4.update self (fun n => { n with last_child := some new_child })
                        else s4)
                else none
            | none => none
      else none
  | _, _ => none

/-- `ContainerLayer::remove_child` (src/layers.rs lines 119–150).  Asserts
the child's parent is a container and is `self` (`mut_ptr_eq`), then
unlinks the child from the sibling list and fixes `first_child` /
`last_child`.  The child's own `parent` and sibling fields are left
untouched, exactly as in the source. -/
def remove_child (s : LayerStore) (self : Nat) (child : Nat) : Option LayerStore :=
  match s.lookup child with
  | none => none
  | some childNode =>
      match childNode.common.parent with
      | none => none   -- assert!(child_common.parent.is_some()) fails
      | some parentId =>
          match s.lookup parentId with
          | none => none
          | some parentNode =>
              -- match on the parent enum value: fail!() on a non-container,
              -- assert!(mut_ptr_eq(container, self)) on a container
              if parentNode.kind = LayerKind.container ∧ parentId = self then
                let s1 :=
                  match childNode.common.next_sibling with
                  | none => s.update self (fun n =>
                      { n with last_child := childNode.common.prev_sibling })
                  | some sib => s.update sib (fun n =>
                      { n with common :=
                        { n.common with prev_sibling := childNode.common.prev_sibling } })
                let s2 :=
                  match childNode.common.prev_sibling with
                  | none => s1.update self (fun n =>
                      { n with first_child := childNode.common.next_sibling })
                  | some sib => s1.update sib (fun n =>
                      { n with common :=
                        { n.common with next_sibling := childNode.common.next_sibling } })
                some s2
              else none

/-! ## 4×4 matrices (geom::matrix::Matrix4 over ℚ)

The geometry library is an external collaborator; its `Matrix4` is a plain
row-major 16-field value type.  `a.mul b` is the matrix product with
entries `c i j = Σ k, a i k * b k j`; `translate` composes with a
translation matrix carrying the offsets in the fourth row (geom's
row-vector convention) and `scale` multiplies the first three rows by the
three factors, as geom does. -/

structure Mat4 where
  m11 : ℚ
  m12 : ℚ
  m13 : ℚ
  m14 : ℚ
  m21 : ℚ
  m22 : ℚ
  m23 : ℚ
  m24 : ℚ
  m31 : ℚ
  m32 : ℚ
  m33 : ℚ
  m34 : ℚ
  m41 : ℚ
  m42 : ℚ
  m43 : ℚ
  m44 : ℚ
deriving DecidableEq, Repr

namespace Mat4

def identity : Mat4 :=
  ⟨1, 0, 0, 0, 0, 1, 0, 0, 0, 0, 1, 0, 0, 0, 0, 1⟩

def mul (a b : Mat4) : Mat4 where
  m11 := a.m11 * b.m11 + a.m12 * b.m21 + a.m13 * b.m31 + a.m14 * b.m41
  m12 := a.m11 * b.m12 + a.m12 * b.m22 + a.m13 * b.m32 + a.m14 * b.m42
  m13 := a.m11 * b.m13 + a.m12 * b.m23 + a.m13 * b.m33 + a.m14 * b.m43
  m14 := a.m11 * b.m14 + a.m12 * b.m24 + a.m13 * b.m34 + a.m14 * b.m44
  m21 := a.m21 * b.m11 + a.m22 * b.m21 + a.m23 * b.m31 + a.m24 * b.m41
  m22 := a.m21 * b.m12 + a.m22 * b.m22 + a.m23 * b.m32 + a.m24 * b.m42
  m23 := a.m21 * b.m13 + a.m22 * b.m23 + a.m23 * b.m33 + a.m24 * b.m43
  m24 := a.m21 * b.m14 + a.m22 * b.m24 + a.m23 * b.m34 + a.m24 * b.m44
  m31 := a.m31 * b.m11 + a.m32 * b.m21 + a.m33 * b.m31 + a.m34 * b.m41
  m32 := a.m31 * b.m12 + a.m32 * b.m22 + a.m33 * b.m32 + a.m34 * b.m42
  m33 := a.m31 * b.m13 + a.m32 * b.m23 + a.m33 * b.m33 + a.m34 * b.m43
  m34 := a.m31 * b.m14 + a.m32 * b.m24 + a.m33 * b.m34 + a.m34 * b.m44
  m41 := a.m41 * b.m11 + a.m42 * b.m21 + a.m43 * b.m31 + a.m44 * b.m41
  m42 := a.m41 * b.m12 + a.m42 * b.m22 + a.m43 * b.m32 + a.m44 * b.m42
  m43 := a.m41 * b.m13 + a.m42 * b.m23 + a.m43 * b.m33 + a.m44 * b.m43
  m44 := a.m41 * b.m14 + a.m42 * b.m24 + a.m43 * b.m34 + a.m44 * b.m44

/-- The pure translation matrix (fourth row carries the offsets). -/
def translationMat (x y z : ℚ) : Mat4 :=
  ⟨1, 0, 0, 0, 0, 1, 0, 0, 0, 0, 1, 0, x, y, z, 1⟩

def translate (a : Mat4) (x y z : ℚ) : Mat4 :=
  a.mul (translationMat x y z)

def scale (a : Mat4) (x y z : ℚ) : Mat4 where
  m11 := a.m11 * x
  m12 := a.m12 * x
  m13 := a.m13 * x
  m14 := a.m14 * x
  m21 := a.m21 * y
  m22 := a.m22 * y
  m23 := a.m23 * y
  m24 := a.m24 * y
  m31 := a.m31 * z
  m32 := a.m32 * z
  m33 := a.m33 * z
  m34 := a.m34 * z
  m41 := a.m41
  m42 := a.m42
  m43 := a.m43
  m44 := a.m44

end Mat4

/-! ## Textures and tiles (texturegl.rs / tiling.rs, not in the tree) -/

/-- `TextureTarget` of texturegl.rs: normalized-coordinate 2D textures or
non-power-of-two rectangle textures. -/
inductive TextureTarget where
  | target2D
  | targetRectangle
deriving DecidableEq, Repr

/-- Filter modes of texturegl.rs. -/
inductive FilterMode where
  | nearest
  | linear
deriving DecidableEq, Repr

/-- Whether a texture's content is stored vertically flipped. -/
inductive Flip where
  | noFlip
  | verticalFlip
deriving DecidableEq, Repr

/-- Modelled from the spec: the `Texture` of the missing texturegl.rs — a
GPU texture handle with a storage-kind target, a pixel size and a flip
flag.  The handle id 0 is the "no content" sentinel (`is_zero`). -/
structure Texture where
  id : Nat
  target : TextureTarget
  width : Nat
  height : Nat
  flip : Flip
deriving DecidableEq, Repr

/-- `Texture::is_zero`: the "no content" sentinel test. -/
def Texture.is_zero (t : Texture) : Bool :=
  t.id = 0

/-- Modelled from the spec: the `Tile` of the missing tiling.rs — a texture
slot plus the tile-local transform placing it within its layer. -/
structure Tile where
  texture : Texture
  transform : Mat4
deriving DecidableEq, Repr

/-! ## Render pipeline (src/src/rendergl.rs) -/

/-- Which shader program a draw uses. -/
inductive ProgramKind where
  | texture2DProgram
  | textureRectangleProgram
  | solidLineProgram
deriving DecidableEq, Repr

/-- The GL effects the render path issues, as an event trace.  A
`fatalNoRectangleProgram` event stands for the `fail!` abort when a
rectangle texture has no program. -/
inductive GLEvent where
  | useProgram (kind : ProgramKind)
  | setFilter (filter : FilterMode)
  | drawQuad (transform : Mat4) (textureId : Nat)
  | drawLines (transform : Mat4)
  | fatalNoRectangleProgram
deriving DecidableEq, Repr

/-- The `RenderContext` state the embedded render path consults: whether a
rectangle-texture program was built (`texture_rectangle_program`) and the
debug-border toggle. -/
structure RenderContext where
  has_texture_rectangle_program : Bool
  show_debug_borders : Bool
deriving DecidableEq, Repr

/-- The Rust `f32 as uint` cast applied to the transform's scale
components (truncation; for the non-negative scales the code compares it
agrees with the floor, and a negative-to-unsigned cast is undefined in the
source's era, embedded here as floor-then-clamp). -/
def ratAsUint (q : ℚ) : Nat :=
  (⌊q⌋).toNat

/-- The filter selection of `bind_and_render_quad`
(src/src/rendergl.rs lines 333–342): `has_scale` compares `m11 as uint`
and `m22 as uint` with the texture's pixel size; Linear when they differ,
Nearest otherwise. -/
def filter_mode_for (transform : Mat4) (texture : Texture) : FilterMode :=
  let has_scale := ratAsUint transform.m11 ≠ texture.width ∨
                   ratAsUint transform.m22 ≠ texture.height
  if has_scale then FilterMode.linear else FilterMode.nearest

/-- `bind_and_render_quad` (src/src/rendergl.rs lines 313–376): select the
program by texture target (aborting when a rectangle texture has no
program), set the filter mode chosen from the transform, bind and draw the
quad.  The texture-coordinate transform and projection are uniforms of
the draw; the trace records the modelview transform and texture. -/
def bind_and_render_quad (render_context : RenderContext) (texture : Texture)
    (transform : Mat4) (_scene_size : ℚ × ℚ) : List GLEvent :=
  match texture.target with
  | TextureTarget.target2D =>
      [GLEvent.useProgram ProgramKind.texture2DProgram,
       GLEvent.setFilter (filter_mode_for transform texture),
       GLEvent.drawQuad transform texture.id]
  | TextureTarget.targetRectangle =>
      if render_context.has_texture_rectangle_program then
        [GLEvent.useProgram ProgramKind.textureRectangleProgram,
         GLEvent.setFilter (filter_mode_for transform texture),
         GLEvent.drawQuad transform texture.id]
      else
        [GLEvent.fatalNoRectangleProgram]

/-- `Tile::render` (src/src/rendergl.rs lines 435–455): return immediately
on the sentinel texture, otherwise compose the tile-local transform, draw
the quad, and overlay the debug border when enabled. -/
def Tile.render (tile : Tile) (render_context : RenderContext)
    (transform : Mat4) (scene_size : ℚ × ℚ) : List GLEvent :=
  if tile.texture.is_zero then
    []
  else
    let transform := transform.mul tile.transform
    bind_and_render_quad render_context tile.texture transform scene_size ++
      (if render_context.show_debug_borders then [GLEvent.drawLines transform] else [])

/-- The modern `Layer<T>` as the render path sees it: bounds, the layer's
own transform, its tiles and its children in paint order.
(`create_textures` and `do_for_all_tiles` belong to the missing modern
layers.rs; `do_for_all_tiles` visits the tiles in order, and
`create_textures` performs upload bookkeeping with no draw calls.) -/
inductive RenderLayer : Type where
  | mk (bounds : QRect) (transform : Mat4) (tiles : List Tile)
       (children : List RenderLayer) : RenderLayer

namespace RenderLayer

def bounds : RenderLayer → QRect
  | .mk b _ _ _ => b

def transform : RenderLayer → Mat4
  | .mk _ t _ _ => t

def tiles : RenderLayer → List Tile
  | .mk _ _ ts _ => ts

def children : RenderLayer → List RenderLayer
  | .mk _ _ _ c => c

end RenderLayer

mutual

/-- `Layer::render` (src/src/rendergl.rs lines 405–433): translate by the
bounds origin, compose the layer's own transform for the tiles, draw the
optional debug border with the incoming transform scaled to the bounds,
then recurse into the children with the cumulative (translated-only)
transform. -/
def RenderLayer.render (render_context : RenderContext) :
    RenderLayer → Mat4 → ℚ × ℚ → List GLEvent
  | .mk b t ts c, transform, scene_size =>
    let cumulative_transform := transform.translate b.x b.y 0
    let tile_transform := cumulative_transform.mul t
    (ts.map (fun tile => tile.render render_context tile_transform scene_size)).flatten ++
    (if render_context.show_debug_borders then
       [GLEvent.drawLines (transform.scale b.w b.h 1)]
     else []) ++
    RenderLayer.renderChildren render_context c cumulative_transform scene_size

/-- The `for child in self.children()` loop of `Layer::render`. -/
def RenderLayer.renderChildren (render_context : RenderContext) :
    List RenderLayer → Mat4 → ℚ × ℚ → List GLEvent
  | [], _, _ => []
  | k :: ks, transform, scene_size =>
      RenderLayer.render render_context k transform scene_size ++
      RenderLayer.renderChildren render_context ks transform scene_size

end

/-! ## The native-surface registry (src/src/platform/macos/surface.rs)

The registry (`IO_SURFACE_REPOSITORY`) maps IOSurface ids to the platform
surfaces; membership is all the embedded operations consult, so it is
carried as the list of registered ids.  A panicking `unwrap` of a cleared
id, and the io_surface lookup failure on an unregistered id, are modelled
as `none`. -/

abbrev SurfaceRegistry := List Nat

/-- `IOSurfaceNativeSurface` (surface.rs lines 83–87). -/
structure IOSurfaceNativeSurface where
  io_surface_id : Option Nat
  will_leak : Bool
deriving DecidableEq, Repr

namespace IOSurfaceNativeSurface

/-- `from_io_surface` (surface.rs lines 90–104): register the surface
under its id and hand back a will-leak handle. -/
def from_io_surface (id : Nat) (registry : SurfaceRegistry) :
    IOSurfaceNativeSurface × SurfaceRegistry :=
  ({ io_surface_id := some id, will_leak := true }, id :: registry)

def mark_will_leak (s : IOSurfaceNativeSurface) : IOSurfaceNativeSurface :=
  { s with will_leak := true }

def mark_wont_leak (s : IOSurfaceNativeSurface) : IOSurfaceNativeSurface :=
  { s with will_leak := false }

/-- `destroy` (surface.rs lines 168–174): remove the registry entry for
`self.io_surface_id.unwrap()`, clear the id, mark wont-leak.  The unwrap
of an already-cleared id panics: `none`. -/
def destroy (s : IOSurfaceNativeSurface) (registry : SurfaceRegistry) :
    Option (IOSurfaceNativeSurface × SurfaceRegistry) :=
  match s.io_surface_id with
  | none => none
  | some id =>
      some ({ io_surface_id := none, will_leak := false },
            registry.filter (fun j => j ≠ id))

/-- `bind_to_texture` (surface.rs lines 147–154): unwrap the id and look
the surface up in the registry; either failure panics (`none`), success
binds the surface to the GL texture. -/
def bind_to_texture (s : IOSurfaceNativeSurface) (registry : SurfaceRegistry) :
    Option Unit :=
  match s.io_surface_id with
  | none => none
  | some id => if id ∈ registry then some () else none

end IOSurfaceNativeSurface

/-! ## Concrete instances used by counterexamples and witnesses -/

/-- The spec's scenario root: one layer, bounds 400×300 at the origin, not
masking, no children, no previously painted tiles. -/
def c1Root : SceneLayer := .mk 0 ⟨0, 0, 400, 300⟩ false none [] []

/-- The scenario scene: full-viewport, scale 1. -/
def c1Scene : Scene := ⟨some c1Root, ⟨0, 0, 400, 300⟩, 1⟩

/-- A transform drawing a 400-wide texture 400.5 pixels wide (and 300 high):
not an exact 1:1 pixel scale, but the truncating cast hides the excess. -/
def c5Transform : Mat4 := { Mat4.identity with m11 := 801 / 2, m22 := 300 }

/-- A doubling (magnifying) transform for the same texture. -/
def c5Magnify : Mat4 := { Mat4.identity with m11 := 800, m22 := 600 }

/-- A live 400×300 2D texture (handle 5, not the sentinel). -/
def c5Texture : Texture := ⟨5, TextureTarget.target2D, 400, 300, Flip.noFlip⟩

/-- A child layer holding an unused buffer, used to exercise subtree
pruning. -/
def c2Child : SceneLayer := .mk 8 ⟨0, 0, 64, 64⟩ false none [5] []

/-- A masked layer whose cached screen rect is absent, placed away from
the dirty rect, with unused buffers 3 and 4 and one child. -/
def c2Masked : SceneLayer := .mk 7 ⟨1000, 0, 64, 64⟩ true none [3, 4] [c2Child]

/-- A childless container node with no links. -/
def containerNode : LayerNode := ⟨.container, ⟨none, none, none⟩, none, none⟩

/-- A disconnected texture-layer node. -/
def textureNode : LayerNode := ⟨.texture, ⟨none, none, none⟩, none, none⟩

/-- A two-node heap: an empty container 0 and a disconnected layer 1. -/
def c3Store : LayerStore := [(0, containerNode), (1, textureNode)]

/-- The heap after `add_child(0, 1)` then `remove_child(0, 1)` on
`c3Store`: the container is childless again, but node 1 still carries the
`parent` back-reference to 0. -/
def c3After : LayerStore :=
  [(0, containerNode), (1, ⟨.texture, ⟨some 0, none, none⟩, none, none⟩)]

/-- A heap with container 0 holding one child 1, plus a disconnected
layer 2. -/
def c10Store : LayerStore :=
  [(0, ⟨.container, ⟨none, none, none⟩, some 1, some 1⟩),
   (1, ⟨.texture, ⟨some 0, none, none⟩, none, none⟩),
   (2, ⟨.texture, ⟨none, none, none⟩, none, none⟩)]

/-- The heap after `add_child(0, 2)` on `c10Store`: 2 is linked at the
front, before 1, and `last_child` still points at 1. -/
def c10After : LayerStore :=
  [(0, ⟨.container, ⟨none, none, none⟩, some 2, some 1⟩),
   (1, ⟨.texture, ⟨some 0, some 2, none⟩, none, none⟩),
   (2, ⟨.texture, ⟨some 0, none, some 1⟩, none, none⟩)]

/-! ## Helper lemmas -/

/-- Membership in the tile-grid index range. -/
theorem mem_gridIndices (lo hi : ℚ) (i : ℤ) :
    i ∈ gridIndices lo hi ↔ ⌊lo / tileSize⌋ ≤ i ∧ i < ⌈hi / tileSize⌉ := by
  simp only [gridIndices]
  constructor
  · intro h
    obtain ⟨k, hk, hi2⟩ := List.mem_map.mp h
    have hk2 := List.mem_range.mp hk
    omega
  · intro h
    apply List.mem_map.mpr
    refine ⟨(i - ⌊lo / tileSize⌋).toNat, List.mem_range.mpr ?_, ?_⟩ <;> omega

/-! ## Claim theorems -/

/-- C9: On a scene whose root is `None`, `get_buffer_requests` returns at
once, appending nothing to either output list. -/
theorem c9_rootless_noop (vp : QRect) (scale : ℚ) :
    Scene.get_buffer_requests ⟨none, vp, scale⟩ = ([], []) :=
  rfl

/-- C8: `set_root_layer_size` sets the root layer's bounds to the rectangle
at origin (0,0) with size `new_size / scale`; with no root it is a no-op;
in particular size (800,600) at scale 2 yields bounds 400×300 at the
origin. -/
theorem c8_set_root_layer_size (vp : QRect) (scale : ℚ) (sz : ℚ × ℚ)
    (i : Nat) (b : QRect) (m : Bool) (s : Option QRect) (u : List Nat)
    (c : List SceneLayer) :
    (Scene.set_root_layer_size ⟨some (.mk i b m s u c), vp, scale⟩ sz =
      ⟨some (.mk i ⟨0, 0, sz.1 / scale, sz.2 / scale⟩ m s u c), vp, scale⟩) ∧
    (Scene.set_root_layer_size ⟨none, vp, scale⟩ sz = ⟨none, vp, scale⟩) ∧
    ((Scene.set_root_layer_size ⟨some c1Root, vp, 2⟩ (800, 600)).root =
      some (.mk 0 ⟨0, 0, 400, 300⟩ false none [] [])) := by
  refine ⟨rfl, rfl, ?_⟩
  show some (SceneLayer.mk 0 ⟨0, 0, 800 / 2, 600 / 2⟩ false none [] []) = _
  norm_num

/-- C7: a tile whose texture is the "no content" sentinel is never drawn:
`Tile::render` returns immediately, issuing no draw call and no GL state
change, whatever the context, transform and scene size. -/
theorem c7_sentinel_tile_not_drawn (tile : Tile) (ctx : RenderContext)
    (transform : Mat4) (scene_size : ℚ × ℚ)
    (h : tile.texture.is_zero = true) :
    tile.render ctx transform scene_size = [] := by
  simp [Tile.render, h]

/-- Witness for C7: a concrete sentinel-textured tile renders to the empty
event trace even with debug borders enabled. -/
theorem c7_witness :
    (Tile.mk ⟨0, TextureTarget.target2D, 256, 256, Flip.noFlip⟩
      Mat4.identity).render ⟨true, true⟩ Mat4.identity (400, 300) = [] :=
  c7_sentinel_tile_not_drawn _ _ _ _ rfl

/-- C4: after a successful destroy the surface's registry entry is removed
and its id cleared, a subsequent `bind_to_texture` on it fails, and a
second `destroy` fails as well — destroy is not idempotent. -/
theorem c4_destroy_clears_and_fails_after (s : IOSurfaceNativeSurface)
    (registry : SurfaceRegistry) (id : Nat) (h : s.io_surface_id = some id) :
    ∃ s2 registry2,
      s.destroy registry = some (s2, registry2) ∧
      s2.io_surface_id = none ∧
      id ∉ registry2 ∧
      (∀ r : SurfaceRegistry, s2.bind_to_texture r = none) ∧
      (∀ r : SurfaceRegistry, s2.destroy r = none) := by
  refine ⟨⟨none, false⟩, registry.filter (fun j => j ≠ id), ?_, rfl, ?_,
    fun r => rfl, fun r => rfl⟩
  · simp [IOSurfaceNativeSurface.destroy, h]
  · simp [List.mem_filter]

/-- Witness for C4 on a concrete surface and registry. -/
theorem c4_witness :
    ∃ s2 registry2,
      IOSurfaceNativeSurface.destroy ⟨some 7, true⟩ [7, 9] = some (s2, registry2) ∧
      s2.io_surface_id = none ∧
      7 ∉ registry2 ∧
      (∀ r : SurfaceRegistry, s2.bind_to_texture r = none) ∧
      (∀ r : SurfaceRegistry, s2.destroy r = none) :=
  c4_destroy_clears_and_fails_after ⟨some 7, true⟩ [7, 9] 7 rfl

/-- C5 counterexample: a transform drawing a 400×300 texture 400.5 pixels
wide — strictly magnifying, not an exact 1:1 pixel scale — still selects
nearest filtering, because the comparison truncates `m11` with `as uint`
before comparing it to the texture width.  The claim requires linear
filtering for every transform that is not an exact 1:1 scale, and for
every magnifying transform. -/
theorem c5_counterexample :
    filter_mode_for c5Transform c5Texture = FilterMode.nearest ∧
    c5Transform.m11 ≠ (c5Texture.width : ℚ) ∧
    (c5Texture.width : ℚ) < c5Transform.m11 := by
  have h1 : ratAsUint ((801 : ℚ) / 2) = 400 := by
    have hf : ⌊(801 : ℚ) / 2⌋ = 400 := by norm_num
    unfold ratAsUint
    omega
  have h2 : ratAsUint (300 : ℚ) = 300 := by
    have hf : ⌊(300 : ℚ)⌋ = 300 := by norm_num
    unfold ratAsUint
    omega
  refine ⟨?_, by norm_num [c5Transform, c5Texture, Mat4.identity], ?_⟩
  · simp [filter_mode_for, c5Transform, c5Texture, Mat4.identity, h1, h2]
  · norm_num [c5Transform, c5Texture, Mat4.identity]

/-- C5 amended: `bind_and_render_quad` selects nearest filtering exactly
when the transform's scale components, truncated by the `as uint` cast,
equal the texture's pixel size, and linear filtering otherwise; in
particular a transform magnifying the width by at least one whole pixel
selects linear filtering (a sub-pixel magnification does not, see the
counterexample). -/
theorem c5_amended (t : Mat4) (tex : Texture) :
    (filter_mode_for t tex = FilterMode.nearest ↔
      (ratAsUint t.m11 = tex.width ∧ ratAsUint t.m22 = tex.height)) ∧
    ((tex.width : ℚ) + 1 ≤ t.m11 → filter_mode_for t tex = FilterMode.linear) := by
  constructor
  · unfold filter_mode_for
    by_cases h1 : ratAsUint t.m11 = tex.width <;>
      by_cases h2 : ratAsUint t.m22 = tex.height <;>
      simp [h1, h2]
  · intro h
    have h2 : ((((tex.width : ℤ) + 1) : ℤ) : ℚ) ≤ t.m11 := by
      push_cast
      linarith
    have hfloor : (tex.width : ℤ) + 1 ≤ ⌊t.m11⌋ := Int.le_floor.mpr h2
    have hne : ratAsUint t.m11 ≠ tex.width := by
      unfold ratAsUint
      omega
    simp [filter_mode_for, hne]

/-- Witness for C5 amended: a doubling transform on a 400×300 texture
selects linear filtering. -/
theorem c5_amended_witness :
    filter_mode_for c5Magnify c5Texture = FilterMode.linear :=
  (c5_amended c5Magnify c5Texture).2
    (by norm_num [c5Magnify, c5Texture, Mat4.identity])

/-- The child loop of `Layer::render` renders each child in order with the
same transform. -/
theorem renderChildren_eq_flatten (ctx : RenderContext) (ks : List RenderLayer)
    (transform : Mat4) (scene_size : ℚ × ℚ) :
    RenderLayer.renderChildren ctx ks transform scene_size =
      (ks.map (fun k => RenderLayer.render ctx k transform scene_size)).flatten := by
  induction ks with
  | nil => simp [RenderLayer.renderChildren]
  | cons k ks ih => simp [RenderLayer.renderChildren, ih]

/-- C6: rendering a layer with incoming transform `M` draws the layer's own
tiles with the composed transform `M · translate(bounds.origin) ·
layer.transform`, while each child is recursed with the cumulative
transform `M · translate(bounds.origin)`, i.e. excluding the layer's own
transform. -/
theorem c6_render_transforms (ctx : RenderContext) (M : Mat4) (b : QRect)
    (t : Mat4) (ts : List Tile) (c : List RenderLayer) (scene_size : ℚ × ℚ) :
    RenderLayer.render ctx (.mk b t ts c) M scene_size =
      (ts.map (fun tile =>
        tile.render ctx ((M.mul (Mat4.translationMat b.x b.y 0)).mul t) scene_size)).flatten ++
      (if ctx.show_debug_borders then [GLEvent.drawLines (M.scale b.w b.h 1)] else []) ++
      (c.map (fun k =>
        RenderLayer.render ctx k (M.mul (Mat4.translationMat b.x b.y 0)) scene_size)).flatten := by
  rw [RenderLayer.render]
  rw [renderChildren_eq_flatten]
  rfl

/-- The grid cell of the tile partition containing a given coordinate:
floor division by the tile size. -/
theorem gridCell_bounds (q : ℚ) :
    ((⌊q / tileSize⌋ : ℚ) * tileSize ≤ q ∧ q < ((⌊q / tileSize⌋ : ℚ) + 1) * tileSize) := by
  have hT : (0 : ℚ) < tileSize := by norm_num [tileSize]
  constructor
  · have h1 : ((⌊q / tileSize⌋ : ℚ)) ≤ q / tileSize := Int.floor_le _
    have h2 := mul_le_mul_of_nonneg_right h1 (le_of_lt hT)
    rwa [div_mul_cancel₀ _ (ne_of_gt hT)] at h2
  · have h1 : q / tileSize < (⌊q / tileSize⌋ : ℚ) + 1 := Int.lt_floor_add_one _
    have h2 := mul_lt_mul_of_pos_right h1 hT
    rwa [div_mul_cancel₀ _ (ne_of_gt hT)] at h2

/-- Every point of the dirty∩bounds intersection is covered by one of the
emitted tile requests: the spec-modelled per-layer tiling partitions the
intersection, so its union covers it. -/
theorem tileRequests_cover (dirty bounds inter : QRect)
    (hI : QRect.intersection dirty bounds = some inter)
    (p : ℚ × ℚ) (hp : QRect.containsPt inter p) :
    ∃ req ∈ tileRequests dirty bounds, QRect.containsPt req.rect p := by
  have hT : (0 : ℚ) < tileSize := by norm_num [tileSize]
  obtain ⟨hx1, hx2, hy1, hy2⟩ := hp
  unfold tileRequests
  rw [hI]
  set i : ℤ := ⌊p.1 / tileSize⌋ with hi
  set j : ℤ := ⌊p.2 / tileSize⌋ with hj
  have hxcell := gridCell_bounds p.1
  have hycell := gridCell_bounds p.2
  have hmemi : i ∈ gridIndices inter.x (inter.x + inter.w) := by
    rw [mem_gridIndices]
    constructor
    · exact Int.floor_mono ((div_le_div_iff_of_pos_right hT).mpr hx1)
    · apply Int.lt_ceil.mpr
      calc (i : ℚ) ≤ p.1 / tileSize := Int.floor_le _
      _ < (inter.x + inter.w) / tileSize := (div_lt_div_iff_of_pos_right hT).mpr hx2
  have hmemj : j ∈ gridIndices inter.y (inter.y + inter.h) := by
    rw [mem_gridIndices]
    constructor
    · exact Int.floor_mono ((div_le_div_iff_of_pos_right hT).mpr hy1)
    · apply Int.lt_ceil.mpr
      calc (j : ℚ) ≤ p.2 / tileSize := Int.floor_le _
      _ < (inter.y + inter.h) / tileSize := (div_lt_div_iff_of_pos_right hT).mpr hy2
  refine ⟨_, List.mem_flatMap.mpr ⟨i, hmemi, List.mem_map.mpr ⟨j, hmemj, rfl⟩⟩, ?_⟩
  refine ⟨max_le hx1 hxcell.1, ?_, max_le hy1 hycell.1, ?_⟩
  · have hcl : max inter.x ((i : ℚ) * tileSize) +
        (min (inter.x + inter.w) (((i : ℚ) + 1) * tileSize) -
          max inter.x ((i : ℚ) * tileSize)) =
        min (inter.x + inter.w) (((i : ℚ) + 1) * tileSize) := by ring
    rw [hcl]
    exact lt_min hx2 (by linarith [hxcell.2])
  · have hcl : max inter.y ((j : ℚ) * tileSize) +
        (min (inter.y + inter.h) (((j : ℚ) + 1) * tileSize) -
          max inter.y ((j : ℚ) * tileSize)) =
        min (inter.y + inter.h) (((j : ℚ) + 1) * tileSize) := by ring
    rw [hcl]
    exact lt_min hy2 (by linarith [hycell.2])

/-- The dirty∩bounds intersection in the C1 scenario is the full layer. -/
theorem c1_inter :
    QRect.intersection ⟨0, 0, 400, 300⟩ ⟨0, 0, 400, 300⟩ =
      some ⟨0, 0, 400, 300⟩ := by
  rw [QRect.intersection, if_pos (by norm_num [QRect.intersects])]
  norm_num

/-- Evaluation of the traversal on the C1 scenario scene: one request
entry for the root, and one unused-buffers entry carrying no buffers. -/
theorem c1_eval :
    Scene.get_buffer_requests c1Scene =
      ([(0, tileRequests ⟨0, 0, 400, 300⟩ ⟨0, 0, 400, 300⟩)], [(0, [])]) := by
  have hne : tileRequests ⟨0, 0, 400, 300⟩ ⟨0, 0, 400, 300⟩ ≠ [] := by
    obtain ⟨req, hreq, -⟩ :=
      tileRequests_cover _ _ _ c1_inter (0, 0) (by norm_num [QRect.containsPt])
    exact List.ne_nil_of_mem hreq
  simp [Scene.get_buffer_requests, c1Scene, c1Root, get_buffer_requests_for_layer,
        goChildren, SceneLayer.get_buffer_requests, SceneLayer.collect_unused_buffers,
        SceneLayer.unused, SceneLayer.bounds, hne]

/-- C1 counterexample: on the scenario scene (no previously painted
tiles), the first `get_buffer_requests` call appends one entry to the
unused-buffers output list, not zero — the push is unconditional in
`get_buffer_requests_for_layer`, the collected buffer list is merely
empty. -/
theorem c1_counterexample :
    (Scene.get_buffer_requests c1Scene).2 ≠ [] ∧
    (Scene.get_buffer_requests c1Scene).2.length = 1 := by
  rw [c1_eval]
  simp

/-- C1 amended: on the scenario scene the first call appends exactly one
(layer, requests) entry whose requests cover the whole layer, and exactly
one unused-buffers entry whose buffer list is empty (rather than zero
unused entries); a second call with an empty dirty rect appends zero
request entries. -/
theorem c1_amended :
    ∃ reqs,
      Scene.get_buffer_requests c1Scene = ([(0, reqs)], [(0, [])]) ∧
      (∀ p : ℚ × ℚ, QRect.containsPt ⟨0, 0, 400, 300⟩ p →
        ∃ r ∈ reqs, QRect.containsPt r.rect p) ∧
      (get_buffer_requests_for_layer 1 c1Root ⟨0, 0, 0, 0⟩ ⟨0, 0, 400, 300⟩).1 = [] := by
  refine ⟨tileRequests ⟨0, 0, 400, 300⟩ ⟨0, 0, 400, 300⟩, c1_eval, ?_, ?_⟩
  · intro p hp
    exact tileRequests_cover _ _ _ c1_inter p hp
  · have hint : QRect.intersection ⟨0, 0, 0, 0⟩ ⟨0, 0, 400, 300⟩ = none := by
      rw [QRect.intersection, if_neg (by norm_num [QRect.intersects])]
    simp [get_buffer_requests_for_layer, c1Root, goChildren,
          SceneLayer.get_buffer_requests, SceneLayer.bounds, tileRequests, hint]

/-- Witness for C1 amended: the point (300, 280) of the layer is covered
by one of the emitted requests. -/
theorem c1_amended_witness :
    ∃ reqs,
      Scene.get_buffer_requests c1Scene = ([(0, reqs)], [(0, [])]) ∧
      ∃ r ∈ reqs, QRect.containsPt r.rect (300, 280) := by
  obtain ⟨reqs, h1, h2, h3⟩ := c1_amended
  exact ⟨reqs, h1, h2 (300, 280) (by norm_num [QRect.containsPt])⟩

/-- C2: a masks-to-bounds layer whose cached screen rect is absent or
misses the incoming dirty rect prunes its whole subtree: the traversal
appends no request entry and no unused-buffers entry for any descendant —
the only appended entries are the layer's own (and its own unused buffers
are still collected and appended, because the collection runs before the
clip check). -/
theorem c2_masked_prune (scale : ℚ) (i : Nat) (b : QRect) (sr : Option QRect)
    (u : List Nat) (c : List SceneLayer) (dirty vp : QRect)
    (h : sr = none ∨ ∃ r, sr = some r ∧ QRect.intersection dirty r = none) :
    get_buffer_requests_for_layer scale (.mk i b true sr u c) dirty vp =
      ((if (tileRequests dirty b).isEmpty then []
        else [(i, tileRequests dirty b)]),
       [(i, u)]) := by
  rcases h with rfl | ⟨r, rfl, hint⟩
  · simp [get_buffer_requests_for_layer, SceneLayer.get_buffer_requests,
          SceneLayer.collect_unused_buffers, SceneLayer.unused, SceneLayer.bounds]
  · simp [get_buffer_requests_for_layer, SceneLayer.get_buffer_requests,
          SceneLayer.collect_unused_buffers, SceneLayer.unused,
          SceneLayer.bounds, hint]

/-- Witness for C2: a concrete masked layer (absent screen rect, bounds
away from the dirty rect) with a child carrying buffers: the traversal
emits nothing for the child, no request entry, and still reclaims the
layer's own unused buffers 3 and 4. -/
theorem c2_witness :
    get_buffer_requests_for_layer 1 c2Masked ⟨0, 0, 400, 300⟩ ⟨0, 0, 400, 300⟩ =
      ([], [(7, [3, 4])]) := by
  have h := c2_masked_prune 1 7 ⟨1000, 0, 64, 64⟩ none [3, 4] [c2Child]
    ⟨0, 0, 400, 300⟩ ⟨0, 0, 400, 300⟩ (Or.inl rfl)
  have hint : QRect.intersection ⟨0, 0, 400, 300⟩ ⟨1000, 0, 64, 64⟩ = none := by
    rw [QRect.intersection, if_neg (by norm_num [QRect.intersects])]
  rw [show c2Masked = SceneLayer.mk 7 ⟨1000, 0, 64, 64⟩ true none [3, 4] [c2Child] from rfl,
      h]
  simp [tileRequests, hint]

namespace LayerStore

/-- Updating one id leaves every lookup expressible through the original
store. -/
theorem lookup_update (s : LayerStore) (i k : Nat) (f : LayerNode → LayerNode) :
    (s.update i f).lookup k = if i = k then (s.lookup k).map f else s.lookup k := by
  induction s with
  | nil =>
      simp [LayerStore.update, LayerStore.lookup]
  | cons hd tl ih =>
      obtain ⟨j, n⟩ := hd
      by_cases hji : j = i
      · subst hji
        by_cases hjk : j = k
        · subst hjk
          simp [LayerStore.update, LayerStore.lookup]
        · simp [LayerStore.update, LayerStore.lookup, hjk, Ne.symm hjk]
      · by_cases hjk : j = k
        · subst hjk
          simp [LayerStore.update, LayerStore.lookup, hji, Ne.symm hji]
        · simp [LayerStore.update, LayerStore.lookup, hji, hjk, ih]

/-- Updates never create or delete entries. -/
theorem lookup_update_isSome (s : LayerStore) (i : Nat) (f : LayerNode → LayerNode)
    (k : Nat) : ((s.update i f).lookup k).isSome = (s.lookup k).isSome := by
  rw [lookup_update]
  by_cases hik : i = k
  · simp only [hik, if_pos rfl]
    cases s.lookup k <;> rfl
  · simp [hik]

/-- An update that does not touch `next_sibling` leaves `nextOf`
unchanged. -/
theorem nextOf_update_preserve (s : LayerStore) (i : Nat)
    (f : LayerNode → LayerNode)
    (hf : ∀ n, (f n).common.next_sibling = n.common.next_sibling) (k : Nat) :
    (s.update i f).nextOf k = s.nextOf k := by
  unfold nextOf
  rw [lookup_update]
  by_cases hik : i = k
  · simp only [hik, if_pos rfl]
    cases s.lookup k <;> simp [hf]
  · simp [hik]

/-- An update at a different id leaves `nextOf` unchanged. -/
theorem nextOf_update_ne (s : LayerStore) (i k : Nat) (f : LayerNode → LayerNode)
    (h : i ≠ k) : (s.update i f).nextOf k = s.nextOf k := by
  unfold nextOf
  rw [lookup_update]
  simp [h]

/-- An update that does not touch `parent` leaves `parentOf` unchanged. -/
theorem parentOf_update_preserve (s : LayerStore) (i : Nat)
    (f : LayerNode → LayerNode)
    (hf : ∀ n, (f n).common.parent = n.common.parent) (k : Nat) :
    (s.update i f).parentOf k = s.parentOf k := by
  unfold parentOf
  rw [lookup_update]
  by_cases hik : i = k
  · simp only [hik, if_pos rfl]
    cases s.lookup k <;> simp [hf]
  · simp [hik]

/-- An update at a different id leaves `parentOf` unchanged. -/
theorem parentOf_update_ne (s : LayerStore) (i k : Nat) (f : LayerNode → LayerNode)
    (h : i ≠ k) : (s.update i f).parentOf k = s.parentOf k := by
  unfold parentOf
  rw [lookup_update]
  simp [h]

/-- An update that does not touch `kind` leaves the looked-up kind
unchanged. -/
theorem lookup_kind_update (s : LayerStore) (i : Nat) (f : LayerNode → LayerNode)
    (hf : ∀ n, (f n).kind = n.kind) (k : Nat) :
    ((s.update i f).lookup k).map LayerNode.kind = (s.lookup k).map LayerNode.kind := by
  rw [lookup_update]
  by_cases hik : i = k
  · simp only [hik, if_pos rfl]
    cases s.lookup k <;> simp [hf]
  · simp [hik]

/-- The sibling walk with zero fuel is empty. -/
theorem walk_zero (s : LayerStore) (x : Option Nat) : s.walkSiblings x 0 = [] := by
  cases x <;> rfl

/-- The sibling walk from an absent start link is empty. -/
theorem walk_none (s : LayerStore) (fuel : Nat) : s.walkSiblings none fuel = [] := by
  cases fuel <;> rfl

/-- Unfolding one step of the sibling walk. -/
theorem walk_cons (s : LayerStore) (i : Nat) (fuel : Nat) :
    s.walkSiblings (some i) (fuel + 1) = i :: s.walkSiblings (s.nextOf i) fuel :=
  rfl

/-- Two stores whose `next_sibling` links agree away from `c` produce the
same sibling walk, as long as the walk in the first store avoids `c`. -/
theorem walkSiblings_congr (s s2 : LayerStore) (c : Nat)
    (hnext : ∀ i, i ≠ c → s2.nextOf i = s.nextOf i) :
    ∀ (fuel : Nat) (start : Option Nat), c ∉ s.walkSiblings start fuel →
      s2.walkSiblings start fuel = s.walkSiblings start fuel := by
  intro fuel
  induction fuel with
  | zero =>
      intro start h
      rw [walk_zero, walk_zero]
  | succ n ih =>
      intro start h
      cases start with
      | none => rfl
      | some i =>
          rw [walkSiblings] at h
          have h1 : i ≠ c := by
            intro heq
            exact h (heq ▸ List.mem_cons_self i _)
          have h2 : c ∉ s.walkSiblings (s.nextOf i) n :=
            fun hm => h (List.mem_cons_of_mem _ hm)
          rw [walkSiblings, walkSiblings, hnext i h1, ih (s.nextOf i) h2]

end LayerStore

/-- C10: `add_child` inserts the new child at the front of the parent's
child sequence: after `add_child(parent, c)` on a disconnected child `c`,
the parent's `first_child` is `c`, `c`'s next sibling is the previous
first child, `last_child` changes only when the parent previously had no
children, and the paint order gains `c` at the front (drawn first,
bottom-most). -/
theorem c10_add_child_front
    (s : LayerStore) (p c : Nat) (pNode cNode : LayerNode)
    (hp : s.lookup p = some pNode) (hpk : pNode.kind = LayerKind.container)
    (hc : s.lookup c = some cNode)
    (hd1 : cNode.common.parent = none) (hd2 : cNode.common.prev_sibling = none)
    (hd3 : cNode.common.next_sibling = none) (hpc : p ≠ c)
    (hfl : pNode.first_child = none ↔ pNode.last_child = none)
    (s1 : LayerStore) (hadd : add_child s p c = some s1) :
    LayerStore.firstChildOf s1 p = some c ∧
    LayerStore.nextOf s1 c = pNode.first_child ∧
    LayerStore.lastChildOf s1 p =
      (if pNode.first_child = none then some c else pNode.last_child) ∧
    ∀ fuel, c ∉ LayerStore.childrenOf s p fuel →
      LayerStore.childrenOf s1 p (fuel + 1) = c :: LayerStore.childrenOf s p fuel := by
  unfold add_child at hadd
  simp only [hp, hc] at hadd
  rw [if_pos ⟨hpk, hd1, hd2, hd3⟩] at hadd
  cases hfc : pNode.first_child with
  | none =>
      have hlast : pNode.last_child = none := hfl.mp hfc
      simp only [hfc] at hadd
      rw [if_pos hlast] at hadd
      injection hadd with hs1
      subst hs1
      have hG1 : LayerStore.firstChildOf
          (((s.update c fun n => { n with common := { n.common with parent := some p } }).update p
            fun n => { n with first_child := some c }).update p
            fun n => { n with last_child := some c }) p = some c := by
        simp [LayerStore.firstChildOf, LayerStore.lookup_update, Ne.symm hpc, hp]
      have hG2 : LayerStore.nextOf
          (((s.update c fun n => { n with common := { n.common with parent := some p } }).update p
            fun n => { n with first_child := some c }).update p
            fun n => { n with last_child := some c }) c = none := by
        simp [LayerStore.nextOf, LayerStore.lookup_update, hpc, hc, hd3]
      have hfs : LayerStore.firstChildOf s p = none := by
        simp [LayerStore.firstChildOf, hp, hfc]
      refine ⟨hG1, hG2, ?_, ?_⟩
      · rw [if_pos rfl]
        simp [LayerStore.lastChildOf, LayerStore.lookup_update, Ne.symm hpc, hp]
      · intro fuel hfu
        simp only [LayerStore.childrenOf, hG1, hfs, LayerStore.walkSiblings, hG2]
  | some fc =>
      simp only [hfc] at hadd
      cases hfcl : s.lookup fc with
      | none => simp [hfcl] at hadd
      | some fcNode =>
          simp only [hfcl] at hadd
          by_cases hprev : fcNode.common.prev_sibling = none
          · rw [if_pos hprev] at hadd
            cases hlast : pNode.last_child with
            | none =>
                have := hfl.mpr hlast
                rw [hfc] at this
                cases this
            | some lc =>
                simp only [hlast] at hadd
                rw [if_neg (by simp)] at hadd
                injection hadd with hs1
                subst hs1
                have hpcs : c ≠ p := Ne.symm hpc
                have hsome_p : ∃ pn,
                    (((s.update c fun n =>
                        { n with common := { n.common with parent := some p } }).update fc fun n =>
                        { n with common := { n.common with prev_sibling := some c } }).update c fun n =>
                        { n with common := { n.common with next_sibling := some fc } }).lookup p =
                      some pn := by
                  rw [← Option.isSome_iff_exists]
                  rw [LayerStore.lookup_update_isSome, LayerStore.lookup_update_isSome,
                      LayerStore.lookup_update_isSome, hp]
                  rfl
                obtain ⟨pn, hpn⟩ := hsome_p
                have hsome_c : ∃ cn,
                    ((s.update c fun n =>
                        { n with common := { n.common with parent := some p } }).update fc fun n =>
                        { n with common := { n.common with prev_sibling := some c } }).lookup c =
                      some cn := by
                  rw [← Option.isSome_iff_exists]
                  rw [LayerStore.lookup_update_isSome, LayerStore.lookup_update_isSome, hc]
                  rfl
                obtain ⟨cn, hcn⟩ := hsome_c
                have hG1 : LayerStore.firstChildOf
                    ((((s.update c fun n =>
                        { n with common := { n.common with parent := some p } }).update fc fun n =>
                        { n with common := { n.common with prev_sibling := some c } }).update c fun n =>
                        { n with common := { n.common with next_sibling := some fc } }).update p fun n =>
                        { n with first_child := some c }) p = some c := by
                  unfold LayerStore.firstChildOf
                  rw [LayerStore.lookup_update, if_pos rfl, hpn]
                  rfl
                have hG2 : LayerStore.nextOf
                    ((((s.update c fun n =>
                        { n with common := { n.common with parent := some p } }).update fc fun n =>
                        { n with common := { n.common with prev_sibling := some c } }).update c fun n =>
                        { n with common := { n.common with next_sibling := some fc } }).update p fun n =>
                        { n with first_child := some c }) c = some fc := by
                  rw [LayerStore.nextOf_update_ne _ p c _ hpc]
                  unfold LayerStore.nextOf
                  rw [LayerStore.lookup_update, if_pos rfl, hcn]
                  rfl
                have hfs : LayerStore.firstChildOf s p = some fc := by
                  simp [LayerStore.firstChildOf, hp, hfc]
                refine ⟨hG1, hG2, ?_, ?_⟩
                · rw [if_neg (by simp)]
                  by_cases hfcp : fc = p
                  · subst hfcp
                    simp [LayerStore.lastChildOf, LayerStore.lookup_update, hpcs, hp, hlast]
                  · simp [LayerStore.lastChildOf, LayerStore.lookup_update, hpcs, hfcp, hp, hlast]
                · intro fuel hfu
                  cases fuel with
                  | zero =>
                      simp only [LayerStore.childrenOf, hG1, hfs, LayerStore.walk_cons,
                                 LayerStore.walk_zero]
                  | succ n =>
                      rw [LayerStore.childrenOf, hfs] at hfu
                      have hnext_all : ∀ i, i ≠ c →
                          LayerStore.nextOf
                            ((((s.update c fun n =>
                                { n with common := { n.common with parent := some p } }).update fc fun n =>
                                { n with common := { n.common with prev_sibling := some c } }).update c fun n =>
                                { n with common := { n.common with next_sibling := some fc } }).update p fun n =>
                                { n with first_child := some c }) i = LayerStore.nextOf s i := by
                        intro i hi
                        rw [LayerStore.nextOf_update_preserve]
                        rw [LayerStore.nextOf_update_ne _ _ _ _ (Ne.symm hi)]
                        rw [LayerStore.nextOf_update_preserve]
                        rw [LayerStore.nextOf_update_preserve]
                        all_goals intro m; rfl
                      have hwalk := LayerStore.walkSiblings_congr s _ c hnext_all (n + 1)
                        (some fc) hfu
                      simp only [LayerStore.childrenOf]
                      rw [hG1, hfs, LayerStore.walk_cons, hG2, hwalk]
          · rw [if_neg hprev] at hadd
            cases hadd

/-- C3 amended: `add_child` attaches a disconnected child to exactly one
parent, and `remove_child(parent, child)` — which asserts the child's
parent is that parent, failing on any other claimed parent — unlinks the
child so it is no longer among the parent's children; but the removed
child still holds its parent back-reference, because `remove_child` never
clears the child's own fields (see the counterexample). -/
theorem c3_amended
    (s : LayerStore) (p c : Nat) (pNode cNode : LayerNode)
    (hp : s.lookup p = some pNode) (hpk : pNode.kind = LayerKind.container)
    (hc : s.lookup c = some cNode)
    (hd1 : cNode.common.parent = none) (hd2 : cNode.common.prev_sibling = none)
    (hd3 : cNode.common.next_sibling = none) (hpc : p ≠ c)
    (hfl : pNode.first_child = none ↔ pNode.last_child = none)
    (hnotfc : pNode.first_child ≠ some c)
    (s1 : LayerStore) (hadd : add_child s p c = some s1) :
    LayerStore.parentOf s c = none ∧
    LayerStore.parentOf s1 c = some p ∧
    (∀ q, q ≠ p → remove_child s1 q c = none) ∧
    ∃ s2, remove_child s1 p c = some s2 ∧
      LayerStore.parentOf s2 c = some p ∧
      ∀ fuel, c ∉ LayerStore.childrenOf s p fuel →
        LayerStore.childrenOf s2 p fuel = LayerStore.childrenOf s p fuel ∧
        c ∉ LayerStore.childrenOf s2 p fuel := by
  have hp0 : LayerStore.parentOf s c = none := by
    simp [LayerStore.parentOf, hc, hd1]
  unfold add_child at hadd
  simp only [hp, hc] at hadd
  rw [if_pos ⟨hpk, hd1, hd2, hd3⟩] at hadd
  cases hfc : pNode.first_child with
  | none =>
      have hlast : pNode.last_child = none := hfl.mp hfc
      simp only [hfc] at hadd
      rw [if_pos hlast] at hadd
      injection hadd with hs1
      subst hs1
      have hlc : (((s.update c fun n =>
            { n with common := { n.common with parent := some p } }).update p fun n =>
            { n with first_child := some c }).update p fun n =>
            { n with last_child := some c }).lookup c =
          some ⟨cNode.kind, ⟨some p, none, none⟩, cNode.first_child, cNode.last_child⟩ := by
        simp [LayerStore.lookup_update, hpc, hc, hd2, hd3]
      have hlp : (((s.update c fun n =>
            { n with common := { n.common with parent := some p } }).update p fun n =>
            { n with first_child := some c }).update p fun n =>
            { n with last_child := some c }).lookup p =
          some ⟨pNode.kind, pNode.common, some c, some c⟩ := by
        simp [LayerStore.lookup_update, Ne.symm hpc, hp]
      have hP1 : LayerStore.parentOf
          (((s.update c fun n =>
            { n with common := { n.common with parent := some p } }).update p fun n =>
            { n with first_child := some c }).update p fun n =>
            { n with last_child := some c }) c = some p := by
        unfold LayerStore.parentOf
        rw [hlc]
      refine ⟨hp0, hP1, ?_, ?_⟩
      · intro q hq
        unfold remove_child
        simp only [hlc, hlp]
        rw [if_neg (fun hcond => (Ne.symm hq) hcond.2)]
      · have hrem : remove_child
            (((s.update c fun n =>
              { n with common := { n.common with parent := some p } }).update p fun n =>
              { n with first_child := some c }).update p fun n =>
              { n with last_child := some c }) p c =
            some ((((((s.update c fun n =>
              { n with common := { n.common with parent := some p } }).update p fun n =>
              { n with first_child := some c }).update p fun n =>
              { n with last_child := some c }).update p fun n =>
              { n with last_child := none }).update p fun n =>
              { n with first_child := none })) := by
          unfold remove_child
          simp only [hlc, hlp]
          rw [if_pos ⟨hpk, trivial⟩]
        refine ⟨_, hrem, ?_, ?_⟩
        · rw [LayerStore.parentOf_update_ne _ p c _ hpc,
              LayerStore.parentOf_update_ne _ p c _ hpc]
          exact hP1
        · intro fuel hfu
          have hfsX : LayerStore.firstChildOf
              (((((s.update c fun n =>
                { n with common := { n.common with parent := some p } }).update p fun n =>
                { n with first_child := some c }).update p fun n =>
                { n with last_child := some c }).update p fun n =>
                { n with last_child := none }).update p fun n =>
                { n with first_child := none }) p = none := by
            unfold LayerStore.firstChildOf
            rw [LayerStore.lookup_update, if_pos rfl, LayerStore.lookup_update,
                if_pos rfl, hlp]
            rfl
          have hfs_s : LayerStore.firstChildOf s p = none := by
            simp [LayerStore.firstChildOf, hp, hfc]
          refine ⟨?_, ?_⟩
          · rw [LayerStore.childrenOf, LayerStore.childrenOf, hfsX, hfs_s,
                LayerStore.walk_none, LayerStore.walk_none]
          · rw [LayerStore.childrenOf, hfsX, LayerStore.walk_none]
            simp
  | some fc =>
      simp only [hfc] at hadd
      have hfcc : fc ≠ c := fun h => hnotfc (h ▸ hfc)
      cases hfcl : s.lookup fc with
      | none => simp [hfcl] at hadd
      | some fcNode =>
          simp only [hfcl] at hadd
          by_cases hprev : fcNode.common.prev_sibling = none
          · rw [if_pos hprev] at hadd
            cases hlast : pNode.last_child with
            | none =>
                have := hfl.mpr hlast
                rw [hfc] at this
                cases this
            | some lc =>
                simp only [hlast] at hadd
                rw [if_neg (by simp)] at hadd
                injection hadd with hs1
                subst hs1
                have hlcB : ((((s.update c fun n =>
                      { n with common := { n.common with parent := some p } }).update fc fun n =>
                      { n with common := { n.common with prev_sibling := some c } }).update c fun n =>
                      { n with common := { n.common with next_sibling := some fc } }).update p fun n =>
                      { n with first_child := some c }).lookup c =
                    some ⟨cNode.kind, ⟨some p, none, some fc⟩,
                      cNode.first_child, cNode.last_child⟩ := by
                  simp [LayerStore.lookup_update, hpc, hfcc, hc, hd2]
                have hsome_pB : ∃ pn2, ((((s.update c fun n =>
                      { n with common := { n.common with parent := some p } }).update fc fun n =>
                      { n with common := { n.common with prev_sibling := some c } }).update c fun n =>
                      { n with common := { n.common with next_sibling := some fc } }).update p fun n =>
                      { n with first_child := some c }).lookup p = some pn2 := by
                  rw [← Option.isSome_iff_exists]
                  rw [LayerStore.lookup_update_isSome, LayerStore.lookup_update_isSome,
                      LayerStore.lookup_update_isSome, LayerStore.lookup_update_isSome, hp]
                  rfl
                obtain ⟨pn2, hpn2⟩ := hsome_pB
                have hpn2k : pn2.kind = LayerKind.container := by
                  have hkc : (((((s.update c fun n =>
                      { n with common := { n.common with parent := some p } }).update fc fun n =>
                      { n with common := { n.common with prev_sibling := some c } }).update c fun n =>
                      { n with common := { n.common with next_sibling := some fc } }).update p fun n =>
                      { n with first_child := some c }).lookup p).map LayerNode.kind =
                      some LayerKind.container := by
                    rw [LayerStore.lookup_kind_update, LayerStore.lookup_kind_update,
                        LayerStore.lookup_kind_update, LayerStore.lookup_kind_update, hp]
                    · simp [hpk]
                    all_goals intro m; rfl
                  rw [hpn2] at hkc
                  simpa using hkc
                have hP1B : LayerStore.parentOf ((((s.update c fun n =>
                      { n with common := { n.common with parent := some p } }).update fc fun n =>
                      { n with common := { n.common with prev_sibling := some c } }).update c fun n =>
                      { n with common := { n.common with next_sibling := some fc } }).update p fun n =>
                      { n with first_child := some c }) c = some p := by
                  unfold LayerStore.parentOf
                  rw [hlcB]
                refine ⟨hp0, hP1B, ?_, ?_⟩
                · intro q hq
                  unfold remove_child
                  simp only [hlcB, hpn2]
                  rw [if_neg (fun hcond => (Ne.symm hq) hcond.2)]
                · have hremB : remove_child ((((s.update c fun n =>
                      { n with common := { n.common with parent := some p } }).update fc fun n =>
                      { n with common := { n.common with prev_sibling := some c } }).update c fun n =>
                      { n with common := { n.common with next_sibling := some fc } }).update p fun n =>
                      { n with first_child := some c }) p c =
                      some ((((((s.update c fun n =>
                        { n with common := { n.common with parent := some p } }).update fc fun n =>
                        { n with common := { n.common with prev_sibling := some c } }).update c fun n =>
                        { n with common := { n.common with next_sibling := some fc } }).update p fun n =>
                        { n with first_child := some c }).update fc fun n =>
                        { n with common := { n.common with prev_sibling := none } }).update p fun n =>
                        { n with first_child := some fc }) := by
                    unfold remove_child
                    simp only [hlcB, hpn2]
                    rw [if_pos ⟨hpn2k, trivial⟩]
                  refine ⟨_, hremB, ?_, ?_⟩
                  · rw [LayerStore.parentOf_update_ne _ p c _ hpc,
                        LayerStore.parentOf_update_ne _ fc c _ hfcc]
                    exact hP1B
                  · intro fuel hfu
                    have hfs_s : LayerStore.firstChildOf s p = some fc := by
                      simp [LayerStore.firstChildOf, hp, hfc]
                    rw [LayerStore.childrenOf, hfs_s] at hfu
                    have hsome_m : ∃ m, (((((s.update c fun n =>
                        { n with common := { n.common with parent := some p } }).update fc fun n =>
                        { n with common := { n.common with prev_sibling := some c } }).update c fun n =>
                        { n with common := { n.common with next_sibling := some fc } }).update p fun n =>
                        { n with first_child := some c }).update fc fun n =>
                        { n with common := { n.common with prev_sibling := none } }).lookup p =
                        some m := by
                      rw [← Option.isSome_iff_exists]
                      rw [LayerStore.lookup_update_isSome, hpn2]
                      rfl
                    obtain ⟨m, hm⟩ := hsome_m
                    have hfsX : LayerStore.firstChildOf ((((((s.update c fun n =>
                        { n with common := { n.common with parent := some p } }).update fc fun n =>
                        { n with common := { n.common with prev_sibling := some c } }).update c fun n =>
                        { n with common := { n.common with next_sibling := some fc } }).update p fun n =>
                        { n with first_child := some c }).update fc fun n =>
                        { n with common := { n.common with prev_sibling := none } }).update p fun n =>
                        { n with first_child := some fc }) p = some fc := by
                      unfold LayerStore.firstChildOf
                      rw [LayerStore.lookup_update, if_pos rfl, hm]
                      rfl
                    have hnextX : ∀ i, i ≠ c →
                        LayerStore.nextOf ((((((s.update c fun n =>
                          { n with common := { n.common with parent := some p } }).update fc fun n =>
                          { n with common := { n.common with prev_sibling := some c } }).update c fun n =>
                          { n with common := { n.common with next_sibling := some fc } }).update p fun n =>
                          { n with first_child := some c }).update fc fun n =>
                          { n with common := { n.common with prev_sibling := none } }).update p fun n =>
                          { n with first_child := some fc }) i = LayerStore.nextOf s i := by
                      intro i hi
                      rw [LayerStore.nextOf_update_preserve]
                      rw [LayerStore.nextOf_update_preserve]
                      rw [LayerStore.nextOf_update_preserve]
                      rw [LayerStore.nextOf_update_ne _ _ _ _ (Ne.symm hi)]
                      rw [LayerStore.nextOf_update_preserve]
                      rw [LayerStore.nextOf_update_preserve]
                      all_goals intro m2; rfl
                    have hwalk := LayerStore.walkSiblings_congr s _ c hnextX fuel (some fc) hfu
                    refine ⟨?_, ?_⟩
                    · rw [LayerStore.childrenOf, LayerStore.childrenOf, hfsX, hfs_s, hwalk]
                    · rw [LayerStore.childrenOf, hfsX, hwalk]
                      exact hfu
          · rw [if_neg hprev] at hadd
            cases hadd

/-- C3 counterexample: adding a disconnected child 1 to the empty
container 0 and then removing it leaves the child out of the children
walk, but its `parent` field still holds `some 0` — the claim's "holding
no parent back-reference" is false on the code. -/
theorem c3_counterexample :
    (add_child c3Store 0 1).bind (fun s1 => remove_child s1 0 1) = some c3After ∧
    LayerStore.childrenOf c3After 0 5 = [] ∧
    LayerStore.parentOf c3After 1 = some 0 ∧
    LayerStore.parentOf c3After 1 ≠ none := by
  decide

/-- Witness for C3 amended on the concrete two-node heap. -/
theorem c3_witness :
    ∃ s2, remove_child
        [(0, (⟨LayerKind.container, ⟨none, none, none⟩, some 1, some 1⟩ : LayerNode)),
         (1, ⟨LayerKind.texture, ⟨some 0, none, none⟩, none, none⟩)] 0 1 = some s2 ∧
      LayerStore.parentOf s2 1 = some 0 ∧
      LayerStore.childrenOf s2 0 3 = LayerStore.childrenOf c3Store 0 3 ∧
      1 ∉ LayerStore.childrenOf s2 0 3 := by
  have h := c3_amended c3Store 0 1 containerNode textureNode (by decide) (by decide)
    (by decide) (by decide) (by decide) (by decide) (by decide) (by decide) (by decide)
    [(0, ⟨LayerKind.container, ⟨none, none, none⟩, some 1, some 1⟩),
     (1, ⟨LayerKind.texture, ⟨some 0, none, none⟩, none, none⟩)] (by decide)
  obtain ⟨-, -, -, s2, hrem, hpar, hfuel⟩ := h
  exact ⟨s2, hrem, hpar, (hfuel 3 (by decide)).1, (hfuel 3 (by decide)).2⟩

/-- Witness for C10: adding child 2 to a container already holding child 1
puts 2 first, keeps `last_child` at 1, and yields paint order [2, 1]. -/
theorem c10_witness :
    LayerStore.firstChildOf c10After 0 = some 2 ∧
    LayerStore.nextOf c10After 2 = some 1 ∧
    LayerStore.lastChildOf c10After 0 = some 1 ∧
    LayerStore.childrenOf c10After 0 3 = [2, 1] := by
  have h := c10_add_child_front c10Store 0 2
    ⟨LayerKind.container, ⟨none, none, none⟩, some 1, some 1⟩
    ⟨LayerKind.texture, ⟨none, none, none⟩, none, none⟩
    (by decide) (by decide) (by decide) (by decide) (by decide) (by decide)
    (by decide) (by decide) c10After (by decide)
  refine ⟨h.1, ?_, ?_, ?_⟩
  · simpa using h.2.1
  · simpa using h.2.2.1
  · have h4 := h.2.2.2 2 (by decide)
    rw [h4]
    decide
